import Mathlib

/-!
Shallow embedding of `aoc/src/grid.rs` (Advent of Code 2022 helper crate).

Conventions of the embedding:
* Rust `i32` values are modelled as unbounded `Int`; `i32` overflow of
  additions/subtractions is outside the model except where a claim is about
  overflow, in which case the exact machine behaviour is modelled with an
  explicit `% 2 ^ 32` (see `Coordinate.manhattan_distance`, whose `u32`
  addition `xd + yd` wraps).
* Rust `usize` is modelled as `Nat`.
* The `BTreeMap<Coordinate, T>` of stored points is modelled as a lookup
  function `Coordinate → Option T` (only `get`/`insert` are used by the code).
* Rust iterators are modelled as explicit state machines with a `next`
  function returning `Option (value × state)`; finite collection is done with
  a fuel-indexed driver `runIter`, and theorems establish that the chosen
  fuel exhausts the iterator.
* The Rust struct field `end` is a Lean keyword, so it is named `stop` here;
  field `points`, `start`, `width`, `height`, `empty` keep their names.
-/

/-- `Coordinate` from grid.rs: a point in the plane with `i32` components. -/
structure Coordinate where
  x : Int
  y : Int
deriving DecidableEq, Repr

/-- `Coordinate::new`. -/
def Coordinate.new (x y : Int) : Coordinate := ⟨x, y⟩

/-- `Coordinate::closest`: step one unit toward `other` on each axis
(`self.x + (other.x - self.x).signum()`, same for `y`). -/
def Coordinate.closest (self other : Coordinate) : Coordinate :=
  ⟨self.x + (other.x - self.x).sign, self.y + (other.y - self.y).sign⟩

/-- `Coordinate::offset`. -/
def Coordinate.offset (self : Coordinate) (xd yd : Int) : Coordinate :=
  ⟨self.x + xd, self.y + yd⟩

/-- `Coordinate::with_x`. -/
def Coordinate.with_x (self : Coordinate) (x : Int) : Coordinate := ⟨x, self.y⟩

/-- `Coordinate::with_y`. -/
def Coordinate.with_y (self : Coordinate) (y : Int) : Coordinate := ⟨self.x, y⟩

/-- `Coordinate::manhattan_distance`: `self.x.abs_diff(other.x) + self.y.abs_diff(other.y)`.
Each `abs_diff` is an exact `u32` (for `i32` arguments it always fits), but the
final sum is a `u32` addition, which wraps modulo `2^32`; the wrap is modelled
explicitly. -/
def Coordinate.manhattan_distance (self other : Coordinate) : Nat :=
  ((self.x - other.x).natAbs + (self.y - other.y).natAbs) % 2 ^ 32

/-- `bounds`: smallest bounding rectangle of a slice of coordinates,
`None` on an empty slice. -/
def bounds (coords : List Coordinate) : Option (Coordinate × Coordinate) := do
  let min_x ← (coords.map (fun c => c.x)).min?
  let min_y ← (coords.map (fun c => c.y)).min?
  let max_x ← (coords.map (fun c => c.x)).max?
  let max_y ← (coords.map (fun c => c.y)).max?
  some (⟨min_x, min_y⟩, ⟨max_x, max_y⟩)

/-- `Line` from grid.rs. The Rust field `end` is named `stop`. -/
structure Line where
  start : Coordinate
  stop : Coordinate
deriving DecidableEq, Repr

/-- `Line::new`. -/
def Line.new (start stop : Coordinate) : Line := ⟨start, stop⟩

/-- `LineIter` from grid.rs. The Rust field `end` is named `stop`. -/
structure LineIter where
  first : Bool
  current : Coordinate
  stop : Coordinate
deriving DecidableEq, Repr

/-- `Line::coords`. -/
def Line.coords (self : Line) : LineIter :=
  { first := true, current := self.start, stop := self.stop }

/-- `<LineIter as Iterator>::next`, as a pure state transformer. -/
def LineIter.next (self : LineIter) : Option (Coordinate × LineIter) :=
  if self.first then
    some (self.current, { self with first := false })
  else if self.current = self.stop then
    none
  else
    let c := self.current.closest self.stop
    some (c, { self with current := c })

/-- Drive an iterator for at most `fuel` steps, collecting the emitted
coordinates and returning the final state. -/
def runIter (it : LineIter) : Nat → List Coordinate × LineIter
  | 0 => ([], it)
  | n + 1 =>
    match it.next with
    | none => ([], it)
    | some (c, it2) =>
      let r := runIter it2 n
      (c :: r.1, r.2)

/-- Number of `closest` steps from `s` to `e`: `max |Δx| |Δy|`. -/
def lineSteps (s e : Coordinate) : Nat :=
  max (e.x - s.x).natAbs (e.y - s.y).natAbs

/-- The full (finite) list of coordinates emitted by `Line::coords`'s
iterator; fuel `lineSteps + 1` is proved sufficient and exact below. -/
def lineList (l : Line) : List Coordinate :=
  (runIter l.coords (lineSteps l.start l.stop + 1)).1

/-- `n`-fold iteration of `Coordinate::closest` toward `e`. -/
def iterClosest (c e : Coordinate) : Nat → Coordinate
  | 0 => c
  | n + 1 => iterClosest (c.closest e) e n

/-- One-dimensional projection of iterated `closest`: repeatedly add
`(b - a).signum()` to `a`. -/
def stepN (a b : Int) : Nat → Int
  | 0 => a
  | n + 1 => stepN (a + (b - a).sign) b n

/-- `Square` from grid.rs. -/
structure Square where
  min : Coordinate
  max : Coordinate
deriving DecidableEq, Repr

/-- `Square::new`. -/
def Square.new (min max : Coordinate) : Square := ⟨min, max⟩

/-- `Square::coords`: one vertical line at `min.x` from `min` to
`(min.x, max.y)`, then for each of its points the horizontal line over to
`max.x`, flattened. -/
def Square.coordsList (self : Square) : List Coordinate :=
  (lineList (Line.new self.min (self.max.with_x self.min.x))).flatMap
    (fun y => lineList (Line.new y (y.with_x self.max.x)))

/-- `OverflowType` from grid.rs. -/
inductive OverflowType where
  | none : OverflowType
  | larger : Int → OverflowType
  | smaller : Int → OverflowType
deriving DecidableEq, Repr

/-- `OutOfBounds` from grid.rs. -/
structure OutOfBounds where
  coord : Coordinate
  x_overflow : OverflowType
  y_overflow : OverflowType
deriving DecidableEq, Repr

/-- `OutOfBounds::new`. -/
def OutOfBounds.new (coord : Coordinate) (x_overflow y_overflow : OverflowType) :
    OutOfBounds :=
  ⟨coord, x_overflow, y_overflow⟩

/-- `Grid` from grid.rs. The Rust field `end` is named `stop`;
the `BTreeMap` is modelled as a lookup function. -/
structure Grid (T : Type) where
  points : Coordinate → Option T
  start : Coordinate
  stop : Coordinate
  width : Nat
  height : Nat
  empty : T

/-- `Grid::from_coords`: caches `width`/`height` from `|end - start| + 1`
and inserts `empty` at both corners. -/
def Grid.from_coords (start stop : Coordinate) (empty : T) : Grid T :=
  { points := fun c => if c = stop then some empty
      else if c = start then some empty else none
    start := start
    stop := stop
    width := (stop.x - start.x).natAbs + 1
    height := (stop.y - start.y).natAbs + 1
    empty := empty }

/-- `Grid::get`: stored value, or `empty` when absent; never fails. -/
def Grid.get (self : Grid T) (coord : Coordinate) : T :=
  (self.points coord).getD self.empty

/-- `Grid::set`: unconditional insert. -/
def Grid.set (self : Grid T) (coord : Coordinate) (val : T) : Grid T :=
  { self with points := fun c => if c = coord then some val else self.points c }

/-- `Grid::check_bounds`: classify each axis independently. -/
def Grid.check_bounds (self : Grid T) (coord : Coordinate) :
    Except OutOfBounds Unit :=
  let x_overflow :=
    if coord.x < self.start.x then OverflowType.smaller self.start.x
    else if coord.x > self.stop.x then OverflowType.larger self.stop.x
    else OverflowType.none
  let y_overflow :=
    if coord.y < self.start.y then OverflowType.smaller self.start.y
    else if coord.y > self.stop.y then OverflowType.larger self.stop.y
    else OverflowType.none
  match x_overflow, y_overflow with
  | OverflowType.none, OverflowType.none => Except.ok ()
  | xo, yo => Except.error (OutOfBounds.new coord xo yo)

/-- `Grid::get_bounded`. -/
def Grid.get_bounded (self : Grid T) (coord : Coordinate) : Except OutOfBounds T := do
  let _ ← self.check_bounds coord
  pure (self.get coord)

/-- `Grid::set_bounded`; the mutated grid is returned. -/
def Grid.set_bounded (self : Grid T) (coord : Coordinate) (val : T) :
    Except OutOfBounds (Grid T) := do
  let _ ← self.check_bounds coord
  pure (self.set coord val)

/-- `Grid::check_and_resize`: on a bounds error, move the violated side of
the rectangle to `coord`'s component on each overflowing axis. -/
def Grid.check_and_resize (self : Grid T) (coord : Coordinate) : Grid T :=
  match self.check_bounds coord with
  | Except.ok _ => self
  | Except.error e =>
    let g1 :=
      match e.x_overflow with
      | OverflowType.none => self
      | OverflowType.larger _ => { self with stop := self.stop.with_x coord.x }
      | OverflowType.smaller _ => { self with start := self.start.with_x coord.x }
    match e.y_overflow with
    | OverflowType.none => g1
    | OverflowType.larger _ => { g1 with stop := g1.stop.with_y coord.y }
    | OverflowType.smaller _ => { g1 with start := g1.start.with_y coord.y }

/-- `Grid::get_resize`: resize to cover `coord`, then read. -/
def Grid.get_resize (self : Grid T) (coord : Coordinate) : Grid T × T :=
  let g2 := self.check_and_resize coord
  (g2, g2.get coord)

/-- `Grid::set_resize`: resize to cover `coord`, then write. -/
def Grid.set_resize (self : Grid T) (coord : Coordinate) (val : T) : Grid T :=
  (self.check_and_resize coord).set coord val

/-- The list `a, a+1, ..., b` (empty when `b < a`), modelling Rust `a..=b`. -/
def intRange (a b : Int) : List Int :=
  (List.range (b + 1 - a).toNat).map (fun i => a + i)

/-- `Grid::coords`: row-major enumeration of the rectangle. -/
def Grid.coords (self : Grid T) : List Coordinate :=
  (intRange self.start.y self.stop.y).flatMap
    (fun y => (intRange self.start.x self.stop.x).map (fun x => Coordinate.new x y))

/-- `Grid::coords_at_x`. -/
def Grid.coords_at_x (self : Grid T) (x : Int) :
    Except OutOfBounds (List Coordinate) := do
  let start := self.start.with_x x
  let stop := self.stop.with_x x
  let _ ← self.check_bounds start
  let _ ← self.check_bounds stop
  pure (lineList (Line.new start stop))

/-- `Grid::coords_at_y`. -/
def Grid.coords_at_y (self : Grid T) (y : Int) :
    Except OutOfBounds (List Coordinate) := do
  let start := self.start.with_y y
  let stop := self.stop.with_y y
  let _ ← self.check_bounds start
  let _ ← self.check_bounds stop
  pure (lineList (Line.new start stop))

/-- `Grid::coords_in_area`: bounding square of the Manhattan diamond,
filtered by the predicate and the (wrapping) Manhattan distance. The
`distance` parameter is Rust `u32`; the source converts it with
`distance as i32`, which is value-preserving exactly when
`distance < 2^31` (theorems about this function carry that hypothesis). -/
def Grid.coords_in_area (coord : Coordinate) (distance : Nat)
    (filter : Coordinate → Bool) : List Coordinate :=
  let min := coord.offset (-(distance : Int)) (distance : Int)
  let max := coord.offset (distance : Int) (-(distance : Int))
  let square := Square.new min max
  square.coordsList.filter
    (fun sq => filter sq && decide (sq.manhattan_distance coord ≤ distance))

/-! ### Characterization of iterated `closest` steps -/

lemma sign_cases (d : Int) :
    d.sign = -1 ∧ d < 0 ∨ d.sign = 0 ∧ d = 0 ∨ d.sign = 1 ∧ 0 < d := by
  rcases lt_trichotomy d 0 with h | h | h
  · exact Or.inl ⟨Int.sign_eq_neg_one_iff_neg.mpr h, h⟩
  · exact Or.inr (Or.inl ⟨by simp [h], h⟩)
  · exact Or.inr (Or.inr ⟨Int.sign_eq_one_iff_pos.mpr h, h⟩)

lemma stepN_eq (b : Int) : ∀ (n : Nat) (a : Int),
    stepN a b n = a + (b - a).sign * min (n : Int) ((b - a).natAbs : Int) := by
  intro n
  induction n with
  | zero => intro a; simp [stepN]
  | succ n ih =>
    intro a
    have hstep : stepN a b (n + 1) = stepN (a + (b - a).sign) b n := rfl
    rw [hstep, ih]
    rcases sign_cases (b - a) with ⟨hs, hd⟩ | ⟨hs, hd⟩ | ⟨hs, hd⟩ <;>
      rw [hs] <;>
      rcases sign_cases (b - (a + (b - a).sign)) with ⟨ht, he⟩ | ⟨ht, he⟩ | ⟨ht, he⟩ <;>
      rw [hs] at ht he <;> rw [ht] <;> omega

lemma iterClosest_proj (e : Coordinate) : ∀ (n : Nat) (c : Coordinate),
    iterClosest c e n = ⟨stepN c.x e.x n, stepN c.y e.y n⟩ := by
  intro n
  induction n with
  | zero => intro c; rfl
  | succ n ih =>
    intro c
    have h1 : iterClosest c e (n + 1) = iterClosest (c.closest e) e n := rfl
    rw [h1, ih]
    rfl

lemma iterClosest_eq (c e : Coordinate) (n : Nat) :
    iterClosest c e n =
      ⟨c.x + (e.x - c.x).sign * min (n : Int) ((e.x - c.x).natAbs : Int),
       c.y + (e.y - c.y).sign * min (n : Int) ((e.y - c.y).natAbs : Int)⟩ := by
  rw [iterClosest_proj, stepN_eq, stepN_eq]

lemma lineSteps_eq_zero {c e : Coordinate} : lineSteps c e = 0 ↔ c = e := by
  obtain ⟨cx, cy⟩ := c
  obtain ⟨ex, ey⟩ := e
  simp only [lineSteps, Coordinate.mk.injEq, Nat.max_eq_zero_iff]
  omega

lemma iterClosest_lineSteps (c e : Coordinate) :
    iterClosest c e (lineSteps c e) = e := by
  obtain ⟨cx, cy⟩ := c
  obtain ⟨ex, ey⟩ := e
  rw [iterClosest_eq]
  simp only [lineSteps, Coordinate.mk.injEq]
  constructor
  · have hmin : min ((max (ex - cx).natAbs (ey - cy).natAbs : Nat) : Int)
        ((ex - cx).natAbs : Int) = ((ex - cx).natAbs : Int) := by omega
    rw [hmin, Int.sign_mul_natAbs]
    omega
  · have hmin : min ((max (ex - cx).natAbs (ey - cy).natAbs : Nat) : Int)
        ((ey - cy).natAbs : Int) = ((ey - cy).natAbs : Int) := by omega
    rw [hmin, Int.sign_mul_natAbs]
    omega

lemma iterClosest_ne_of_lt {c e : Coordinate} {n : Nat} (h : n < lineSteps c e) :
    iterClosest c e n ≠ e := by
  obtain ⟨cx, cy⟩ := c
  obtain ⟨ex, ey⟩ := e
  intro heq
  rw [iterClosest_eq] at heq
  simp only [Coordinate.mk.injEq] at heq
  obtain ⟨hx, hy⟩ := heq
  simp only [lineSteps] at h
  rcases sign_cases (ex - cx) with ⟨hs, hd⟩ | ⟨hs, hd⟩ | ⟨hs, hd⟩ <;>
    rw [hs] at hx <;>
    rcases sign_cases (ey - cy) with ⟨ht, he⟩ | ⟨ht, he⟩ | ⟨ht, he⟩ <;>
    rw [ht] at hy <;> omega

lemma iterClosest_injOn {c e : Coordinate} {n m : Nat}
    (hn : n ≤ lineSteps c e) (hm : m ≤ lineSteps c e)
    (heq : iterClosest c e n = iterClosest c e m) : n = m := by
  obtain ⟨cx, cy⟩ := c
  obtain ⟨ex, ey⟩ := e
  rw [iterClosest_eq, iterClosest_eq] at heq
  simp only [lineSteps] at hn hm
  simp only [Coordinate.mk.injEq] at heq
  obtain ⟨hx, hy⟩ := heq
  rcases sign_cases (ex - cx) with ⟨hs, hd⟩ | ⟨hs, hd⟩ | ⟨hs, hd⟩ <;>
    rw [hs] at hx <;>
    rcases sign_cases (ey - cy) with ⟨ht, he⟩ | ⟨ht, he⟩ | ⟨ht, he⟩ <;>
    rw [ht] at hy <;> omega

lemma lineSteps_closest {c e : Coordinate} (h : c ≠ e) :
    lineSteps (c.closest e) e + 1 = lineSteps c e := by
  obtain ⟨cx, cy⟩ := c
  obtain ⟨ex, ey⟩ := e
  have hne : ¬(cx = ex ∧ cy = ey) := by
    intro ⟨h1, h2⟩; exact h (by rw [h1, h2])
  simp only [lineSteps, Coordinate.closest]
  rcases sign_cases (ex - cx) with ⟨hs, hd⟩ | ⟨hs, hd⟩ | ⟨hs, hd⟩ <;>
    rw [hs] <;>
    rcases sign_cases (ey - cy) with ⟨ht, he⟩ | ⟨ht, he⟩ | ⟨ht, he⟩ <;>
    rw [ht] <;> omega

lemma runIter_false (e : Coordinate) : ∀ (m : Nat) (c : Coordinate),
    lineSteps c e = m →
    runIter ⟨false, c, e⟩ m =
      ((List.range m).map (fun i => iterClosest c e (i + 1)), ⟨false, e, e⟩) := by
  intro m
  induction m with
  | zero =>
    intro c h
    have hce : c = e := lineSteps_eq_zero.mp h
    subst hce
    simp [runIter]
  | succ m ih =>
    intro c h
    have hne : c ≠ e := by
      intro hce
      rw [hce, lineSteps_eq_zero.mpr rfl] at h
      exact Nat.succ_ne_zero m h.symm
    have hnext : LineIter.next ⟨false, c, e⟩ =
        some (c.closest e, ⟨false, c.closest e, e⟩) := by
      simp [LineIter.next, hne]
    have hstep : lineSteps (c.closest e) e = m := by
      have := lineSteps_closest hne
      omega
    have hrun : runIter ⟨false, c, e⟩ (m + 1) =
        (c.closest e :: (runIter ⟨false, c.closest e, e⟩ m).1,
         (runIter ⟨false, c.closest e, e⟩ m).2) := by
      simp [runIter, hnext]
    rw [hrun, ih (c.closest e) hstep]
    simp only [List.range_succ_eq_map, List.map_cons, List.map_map]
    rfl

lemma lineList_eq (s e : Coordinate) :
    lineList (Line.new s e) =
      (List.range (lineSteps s e + 1)).map (iterClosest s e) := by
  have hnext : LineIter.next ⟨true, s, e⟩ = some (s, ⟨false, s, e⟩) := by
    simp [LineIter.next]
  have h1 : lineList (Line.new s e) =
      s :: (runIter ⟨false, s, e⟩ (lineSteps s e)).1 := by
    simp [lineList, Line.coords, Line.new, runIter, hnext]
  rw [h1, runIter_false e (lineSteps s e) s rfl]
  simp only [List.range_succ_eq_map, List.map_cons, List.map_map]
  rfl

lemma lineList_final (s e : Coordinate) :
    (runIter (Line.new s e).coords (lineSteps s e + 1)).2 = ⟨false, e, e⟩ := by
  have hnext : LineIter.next ⟨true, s, e⟩ = some (s, ⟨false, s, e⟩) := by
    simp [LineIter.next]
  have h1 : (runIter (Line.new s e).coords (lineSteps s e + 1)).2 =
      (runIter ⟨false, s, e⟩ (lineSteps s e)).2 := by
    simp [Line.coords, Line.new, runIter, hnext]
  rw [h1, runIter_false e (lineSteps s e) s rfl]

lemma next_exhausted (e : Coordinate) : LineIter.next ⟨false, e, e⟩ = none := by
  simp [LineIter.next]

lemma lineList_length (s e : Coordinate) :
    (lineList (Line.new s e)).length = lineSteps s e + 1 := by
  rw [lineList_eq, List.length_map, List.length_range]

lemma lineList_nodup (s e : Coordinate) : (lineList (Line.new s e)).Nodup := by
  rw [lineList_eq]
  refine List.Nodup.map_on ?_ (List.nodup_range _)
  intro n hn m hm heq
  rw [List.mem_range] at hn hm
  exact iterClosest_injOn (by omega) (by omega) heq

lemma lineList_head (s e : Coordinate) :
    (lineList (Line.new s e)).head? = some s := by
  rw [lineList_eq, List.range_succ_eq_map]
  rfl

lemma lineList_getLast (s e : Coordinate) :
    (lineList (Line.new s e)).getLast? = some e := by
  rw [lineList_eq, List.range_succ, List.map_append]
  simp only [List.map_cons, List.map_nil, List.getLast?_append,
    List.getLast?_singleton, Option.or_some]
  rw [iterClosest_lineSteps]

lemma lineList_mem_stop (s e : Coordinate) : e ∈ lineList (Line.new s e) := by
  rw [lineList_eq]
  refine List.mem_map.mpr ⟨lineSteps s e, ?_, iterClosest_lineSteps s e⟩
  rw [List.mem_range]
  omega

lemma lineList_count_stop (s e : Coordinate) :
    (lineList (Line.new s e)).count e = 1 :=
  List.count_eq_one_of_mem (lineList_nodup s e) (lineList_mem_stop s e)

lemma lineList_vert (a b : Coordinate) (t : Int) (hb : b = ⟨a.x, a.y + t⟩) :
    lineList (Line.new a b) =
      (List.range (t.natAbs + 1)).map (fun j => ⟨a.x, a.y + t.sign * j⟩) := by
  subst hb
  obtain ⟨ax, ay⟩ := a
  rw [lineList_eq]
  have hsteps : lineSteps ⟨ax, ay⟩ ⟨ax, ay + t⟩ = t.natAbs := by
    simp only [lineSteps]
    omega
  rw [hsteps]
  apply List.map_congr_left
  intro j hj
  rw [List.mem_range] at hj
  rw [iterClosest_eq]
  simp only [Coordinate.mk.injEq]
  have h1 : (ax - ax).sign = 0 := by simp
  have h2 : ay + t - ay = t := by ring
  rw [h1, h2]
  have hmin : min (j : Int) (t.natAbs : Int) = (j : Int) := by omega
  rw [hmin]
  omega

lemma lineList_horiz (a b : Coordinate) (t : Int) (hb : b = ⟨a.x + t, a.y⟩) :
    lineList (Line.new a b) =
      (List.range (t.natAbs + 1)).map (fun i => ⟨a.x + t.sign * i, a.y⟩) := by
  subst hb
  obtain ⟨ax, ay⟩ := a
  rw [lineList_eq]
  have hsteps : lineSteps ⟨ax, ay⟩ ⟨ax + t, ay⟩ = t.natAbs := by
    simp only [lineSteps]
    omega
  rw [hsteps]
  apply List.map_congr_left
  intro i hi
  rw [List.mem_range] at hi
  rw [iterClosest_eq]
  simp only [Coordinate.mk.injEq]
  have h1 : (ay - ay).sign = 0 := by simp
  have h2 : ax + t - ax = t := by ring
  rw [h1, h2]
  have hmin : min (i : Int) (t.natAbs : Int) = (i : Int) := by omega
  rw [hmin]
  omega

/-! ### The bounding square built by `coords_in_area` -/

lemma square_coordsList_eq (cx cy : Int) (d : Nat) :
    (Square.new ⟨cx + -(d : Int), cy + (d : Int)⟩
        ⟨cx + (d : Int), cy + -(d : Int)⟩).coordsList =
      (List.range (2 * d + 1)).flatMap (fun j =>
        (List.range (2 * d + 1)).map (fun i =>
          ⟨cx - (d : Int) + (i : Int), cy + (d : Int) - (j : Int)⟩)) := by
  simp only [Square.coordsList, Square.new, Coordinate.with_x]
  rw [lineList_vert ⟨cx + -(d : Int), cy + (d : Int)⟩ ⟨cx + -(d : Int), cy + -(d : Int)⟩
      (-(2 * (d : Int)))
      (congrArg (Coordinate.mk (cx + -(d : Int)))
        (show cy + -(d : Int) = cy + (d : Int) + -(2 * (d : Int)) by ring))]
  have h2 : (-(2 * (d : Int))).natAbs = 2 * d := by omega
  rw [h2, List.flatMap_map]
  rw [List.flatMap_def, List.flatMap_def]
  apply congrArg List.flatten
  apply List.map_congr_left
  intro j hj
  rw [List.mem_range] at hj
  rw [lineList_horiz ⟨cx + -(d : Int), cy + (d : Int) + (-(2 * (d : Int))).sign * (j : Int)⟩
      _ (2 * (d : Int))
      (by
        simp only [Coordinate.with_x, Coordinate.mk.injEq]
        exact ⟨by ring, trivial⟩)]
  have h3 : (2 * (d : Int)).natAbs = 2 * d := by omega
  rw [h3]
  apply List.map_congr_left
  intro i hi
  rw [List.mem_range] at hi
  by_cases hd : d = 0
  · subst hd
    simp only [Nat.mul_zero, Nat.zero_add, List.mem_range, Nat.lt_one_iff] at hj hi
    subst hj
    subst hi
    simp
  · have hpos : (0 : Int) < 2 * (d : Int) := by omega
    rw [Int.sign_eq_one_iff_pos.mpr hpos,
      Int.sign_eq_neg_one_iff_neg.mpr (by omega : -(2 * (d : Int)) < 0)]
    simp only [Coordinate.mk.injEq]
    constructor <;> ring

lemma square_mem (cx cy : Int) (d : Nat) (c : Coordinate) :
    c ∈ (Square.new ⟨cx + -(d : Int), cy + (d : Int)⟩
        ⟨cx + (d : Int), cy + -(d : Int)⟩).coordsList ↔
      (c.x - cx).natAbs ≤ d ∧ (c.y - cy).natAbs ≤ d := by
  obtain ⟨a, b⟩ := c
  rw [square_coordsList_eq]
  simp only [List.mem_flatMap, List.mem_map, List.mem_range, Coordinate.mk.injEq]
  constructor
  · rintro ⟨j, hj, i, hi, hx, hy⟩
    constructor <;> omega
  · rintro ⟨hx, hy⟩
    refine ⟨(cy + d - b).toNat, by omega, (a - cx + d).toNat, by omega, by omega, by omega⟩

lemma square_nodup (cx cy : Int) (d : Nat) :
    (Square.new ⟨cx + -(d : Int), cy + (d : Int)⟩
        ⟨cx + (d : Int), cy + -(d : Int)⟩).coordsList.Nodup := by
  rw [square_coordsList_eq]
  rw [List.nodup_flatMap]
  constructor
  · intro j hj
    refine List.Nodup.map_on ?_ (List.nodup_range _)
    intro n hn m hm heq
    simp only [Coordinate.mk.injEq] at heq
    omega
  · have hp : (List.range (2 * d + 1)).Pairwise (· ≠ ·) :=
      List.Pairwise.imp (fun h => h) (List.nodup_range (2 * d + 1))
    refine hp.imp ?_
    intro j j' hne
    rw [Function.onFun]
    rw [List.disjoint_left]
    intro a ha ha'
    obtain ⟨ax, ay⟩ := a
    simp only [List.mem_map, List.mem_range, Coordinate.mk.injEq] at ha ha'
    obtain ⟨i, hi, hx, hy⟩ := ha
    obtain ⟨i', hi', hx', hy'⟩ := ha'
    exact hne (by omega)

lemma square_count (cx cy : Int) (d : Nat) (c : Coordinate) :
    (Square.new ⟨cx + -(d : Int), cy + (d : Int)⟩
        ⟨cx + (d : Int), cy + -(d : Int)⟩).coordsList.count c =
      if (c.x - cx).natAbs ≤ d ∧ (c.y - cy).natAbs ≤ d then 1 else 0 := by
  by_cases h : (c.x - cx).natAbs ≤ d ∧ (c.y - cy).natAbs ≤ d
  · rw [if_pos h]
    exact List.count_eq_one_of_mem (square_nodup cx cy d)
      ((square_mem cx cy d c).mpr h)
  · rw [if_neg h]
    exact List.count_eq_zero.mpr (fun hm => h ((square_mem cx cy d c).mp hm))

lemma coords_in_area_count (cx cy : Int) (d : Nat) (filter : Coordinate → Bool)
    (hd : d < 2 ^ 31) (c : Coordinate) :
    (Grid.coords_in_area ⟨cx, cy⟩ d filter).count c =
      if filter c = true ∧ (c.x - cx).natAbs + (c.y - cy).natAbs ≤ d then 1
      else 0 := by
  obtain ⟨a, b⟩ := c
  simp only [Grid.coords_in_area, Coordinate.offset]
  by_cases hp : (fun sq => filter sq &&
      decide (Coordinate.manhattan_distance sq ⟨cx, cy⟩ ≤ d)) (⟨a, b⟩ : Coordinate) = true
  · rw [List.count_filter (p := fun sq => filter sq &&
      decide (Coordinate.manhattan_distance sq ⟨cx, cy⟩ ≤ d)) hp]
    rw [square_count]
    simp only [show ({ x := a, y := b } : Coordinate).x = a from rfl,
      show ({ x := a, y := b } : Coordinate).y = b from rfl]
    have hp2 : (filter ⟨a, b⟩ &&
      decide (Coordinate.manhattan_distance ⟨a, b⟩ ⟨cx, cy⟩ ≤ d)) = true := hp
    simp only [Bool.and_eq_true, decide_eq_true_eq] at hp2
    obtain ⟨hf, hm⟩ := hp2
    simp only [Coordinate.manhattan_distance] at hm
    by_cases hbox : (a - cx).natAbs ≤ d ∧ (b - cy).natAbs ≤ d
    · rw [if_pos hbox, if_pos]
      obtain ⟨h1, h2⟩ := hbox
      exact ⟨hf, by omega⟩
    · rw [if_neg hbox, if_neg]
      rintro ⟨hf2, hsum⟩
      exact hbox ⟨by omega, by omega⟩
  · have hc : (⟨a, b⟩ : Coordinate) ∉
        (Square.new ⟨cx + -(d : Int), cy + (d : Int)⟩
          ⟨cx + (d : Int), cy + -(d : Int)⟩).coordsList.filter
          (fun sq => filter sq &&
            decide (Coordinate.manhattan_distance sq ⟨cx, cy⟩ ≤ d)) :=
      fun hmem => hp (List.of_mem_filter (p := fun sq => filter sq &&
        decide (Coordinate.manhattan_distance sq ⟨cx, cy⟩ ≤ d)) hmem)
    rw [List.count_eq_zero.mpr hc, if_neg]
    rintro ⟨hf, hsum⟩
    apply hp
    show (filter ⟨a, b⟩ &&
      decide (Coordinate.manhattan_distance ⟨a, b⟩ ⟨cx, cy⟩ ≤ d)) = true
    simp only [Bool.and_eq_true, decide_eq_true_eq]
    refine ⟨hf, ?_⟩
    simp only [Coordinate.manhattan_distance]
    omega

/-! ### Grid bounds checking and resizing -/

lemma check_bounds_ok_iff {T : Type} (g : Grid T) (c : Coordinate) :
    g.check_bounds c = Except.ok () ↔
      g.start.x ≤ c.x ∧ c.x ≤ g.stop.x ∧ g.start.y ≤ c.y ∧ c.y ≤ g.stop.y := by
  simp only [Grid.check_bounds]
  split_ifs <;> simp <;> omega

lemma check_bounds_error_iff {T : Type} (g : Grid T) (c : Coordinate)
    (e : OutOfBounds) :
    g.check_bounds c = Except.error e ↔
      ¬(g.start.x ≤ c.x ∧ c.x ≤ g.stop.x ∧ g.start.y ≤ c.y ∧ c.y ≤ g.stop.y) ∧
      e = ⟨c,
        (if c.x < g.start.x then OverflowType.smaller g.start.x
         else if g.stop.x < c.x then OverflowType.larger g.stop.x
         else OverflowType.none),
        (if c.y < g.start.y then OverflowType.smaller g.start.y
         else if g.stop.y < c.y then OverflowType.larger g.stop.y
         else OverflowType.none)⟩ := by
  simp only [Grid.check_bounds, OutOfBounds.new]
  split_ifs <;>
    simp [eq_comm, OutOfBounds.mk.injEq] <;>
    omega

lemma check_and_resize_frame {T : Type} (g : Grid T) (c : Coordinate) :
    (g.check_and_resize c).points = g.points ∧
    (g.check_and_resize c).width = g.width ∧
    (g.check_and_resize c).height = g.height ∧
    (g.check_and_resize c).empty = g.empty := by
  unfold Grid.check_and_resize
  cases h : g.check_bounds c with
  | ok u => simp
  | error e =>
    obtain ⟨ec, xo, yo⟩ := e
    cases xo <;> cases yo <;> simp

lemma check_and_resize_mono {T : Type} (g : Grid T) (c : Coordinate) :
    (g.check_and_resize c).start.x ≤ g.start.x ∧
    (g.check_and_resize c).start.y ≤ g.start.y ∧
    g.stop.x ≤ (g.check_and_resize c).stop.x ∧
    g.stop.y ≤ (g.check_and_resize c).stop.y := by
  unfold Grid.check_and_resize
  cases h : g.check_bounds c with
  | ok u => simp
  | error e =>
    rw [check_bounds_error_iff] at h
    obtain ⟨hout, he⟩ := h
    subst he
    split_ifs <;> simp [Coordinate.with_x, Coordinate.with_y] <;> omega

lemma check_and_resize_bounds {T : Type} (g : Grid T) (c : Coordinate)
    (hx : g.start.x ≤ g.stop.x) (hy : g.start.y ≤ g.stop.y) :
    (g.check_and_resize c).start = ⟨min g.start.x c.x, min g.start.y c.y⟩ ∧
    (g.check_and_resize c).stop = ⟨max g.stop.x c.x, max g.stop.y c.y⟩ := by
  obtain ⟨pts, ⟨gsx, gsy⟩, ⟨gtx, gty⟩, w, ht, emp⟩ := g
  obtain ⟨a, b⟩ := c
  simp only at hx hy
  unfold Grid.check_and_resize Grid.check_bounds OutOfBounds.new
  split_ifs <;>
    simp_all [Coordinate.with_x, Coordinate.with_y, Coordinate.mk.injEq] <;>
    omega

lemma set_frame {T : Type} (g : Grid T) (c : Coordinate) (v : T) :
    (g.set c v).start = g.start ∧ (g.set c v).stop = g.stop ∧
    (g.set c v).width = g.width ∧ (g.set c v).height = g.height ∧
    (g.set c v).empty = g.empty :=
  ⟨rfl, rfl, rfl, rfl, rfl⟩

lemma get_set_same {T : Type} (g : Grid T) (c : Coordinate) (v : T) :
    (g.set c v).get c = v := by
  simp [Grid.get, Grid.set]

lemma get_set_other {T : Type} (g : Grid T) (c : Coordinate) (v : T)
    (c2 : Coordinate) (h : c2 ≠ c) : (g.set c v).get c2 = g.get c2 := by
  simp [Grid.get, Grid.set, h]

lemma get_congr {T : Type} {g1 g2 : Grid T} (hp : g1.points = g2.points)
    (he : g1.empty = g2.empty) (c : Coordinate) : g1.get c = g2.get c := by
  simp [Grid.get, hp, he]

lemma get_bounded_error_iff {T : Type} (g : Grid T) (c : Coordinate)
    (e : OutOfBounds) :
    g.get_bounded c = Except.error e ↔ g.check_bounds c = Except.error e := by
  unfold Grid.get_bounded
  cases hcb : g.check_bounds c <;> simp [hcb]

lemma set_bounded_error_iff {T : Type} (g : Grid T) (c : Coordinate) (v : T)
    (e : OutOfBounds) :
    g.set_bounded c v = Except.error e ↔ g.check_bounds c = Except.error e := by
  unfold Grid.set_bounded
  cases hcb : g.check_bounds c <;> simp [hcb]

lemma get_bounded_ok_iff {T : Type} (g : Grid T) (c : Coordinate) :
    (∃ t, g.get_bounded c = Except.ok t) ↔
      g.start.x ≤ c.x ∧ c.x ≤ g.stop.x ∧ g.start.y ≤ c.y ∧ c.y ≤ g.stop.y := by
  cases hcb : g.check_bounds c with
  | ok u =>
    cases u
    constructor
    · intro _
      exact (check_bounds_ok_iff g c).mp hcb
    · intro _
      exact ⟨g.get c, by simp [Grid.get_bounded, hcb]⟩
  | error e =>
    constructor
    · rintro ⟨t, ht⟩
      rw [(by simp [Grid.get_bounded, hcb] : g.get_bounded c = Except.error e)]
        at ht
      cases ht
    · intro hin
      rw [(check_bounds_ok_iff g c).mpr hin] at hcb
      cases hcb

lemma set_bounded_ok_iff {T : Type} (g : Grid T) (c : Coordinate) (v : T)
    (g2 : Grid T) :
    g.set_bounded c v = Except.ok g2 ↔
      g.check_bounds c = Except.ok () ∧ g2 = g.set c v := by
  unfold Grid.set_bounded
  cases hcb : g.check_bounds c with
  | ok u => cases u; simp [hcb, eq_comm]
  | error e => simp [hcb]

lemma set_resize_spec {T : Type} (g : Grid T) (c : Coordinate) (v : T)
    (hx : g.start.x ≤ g.stop.x) (hy : g.start.y ≤ g.stop.y) :
    (g.set_resize c v).start = ⟨min g.start.x c.x, min g.start.y c.y⟩ ∧
    (g.set_resize c v).stop = ⟨max g.stop.x c.x, max g.stop.y c.y⟩ ∧
    (g.set_resize c v).get c = v ∧
    (∀ c2, c2 ≠ c → (g.set_resize c v).get c2 = g.get c2) := by
  obtain ⟨hstart, hstop⟩ := check_and_resize_bounds g c hx hy
  obtain ⟨hpts, _, _, hemp⟩ := check_and_resize_frame g c
  refine ⟨hstart, hstop, get_set_same _ _ _, ?_⟩
  intro c2 hne
  show ((g.check_and_resize c).set c v).get c2 = g.get c2
  rw [get_set_other (g.check_and_resize c) c v c2 hne]
  exact get_congr hpts hemp c2

lemma runIter_none (it : LineIter) (h : it.next = none) :
    ∀ m, runIter it m = ([], it) := by
  intro m
  cases m with
  | zero => rfl
  | succ m => simp [runIter, h]

lemma runIter_length_le : ∀ (m : Nat) (it : LineIter),
    ((runIter it m).1).length ≤ m := by
  intro m
  induction m with
  | zero => intro it; simp [runIter]
  | succ m ih =>
    intro it
    cases h : it.next with
    | none => simp [runIter, h]
    | some r =>
      simp only [runIter, h]
      exact Nat.succ_le_succ (ih r.2)

lemma runIter_add : ∀ (m : Nat) (it : LineIter) (k : Nat),
    (runIter it (m + k)).1 =
      (runIter it m).1 ++ (runIter (runIter it m).2 k).1 := by
  intro m
  induction m with
  | zero => intro it k; simp [runIter]
  | succ m ih =>
    intro it k
    rw [Nat.succ_add]
    cases h : it.next with
    | none =>
      simp only [runIter, h]
      rw [runIter_none it h k]
      simp
    | some r =>
      simp only [runIter, h]
      rw [ih r.2 k]
      simp

lemma stepN_succ_right (b : Int) : ∀ (n : Nat) (a : Int),
    stepN a b (n + 1) = stepN a b n + (b - stepN a b n).sign := by
  intro n
  induction n with
  | zero => intro a; rfl
  | succ n ih =>
    intro a
    exact ih (a + (b - a).sign)

lemma iterClosest_succ (c e : Coordinate) (n : Nat) :
    iterClosest c e (n + 1) = (iterClosest c e n).closest e := by
  rw [iterClosest_proj, iterClosest_proj, stepN_succ_right, stepN_succ_right]
  rfl

lemma from_coords_get {T : Type} (s e : Coordinate) (v : T) (c : Coordinate) :
    (Grid.from_coords s e v).get c = v := by
  simp only [Grid.from_coords, Grid.get]
  split_ifs <;> rfl

/-! ### Claims -/

/-- C3: for every `Line`, `coords()` yields `start` first, each subsequent
element is `current.closest(end)`, and the sequence ends exactly when `end`
is reached, with `end` emitted exactly once; in particular
`Line::new((1,1),(3,4)).coords()` is `[(1,1),(2,2),(3,3),(3,4)]` and
`Line::new((0,0),(0,5)).coords()` is the 6-element vertical run. -/
theorem claim_C3 : ∀ (l : Line),
    (lineList l).head? = some l.start ∧
    lineList l =
      (List.range (lineSteps l.start l.stop + 1)).map (iterClosest l.start l.stop) ∧
    (∀ n : Nat, iterClosest l.start l.stop (n + 1) =
      (iterClosest l.start l.stop n).closest l.stop) ∧
    (lineList l).getLast? = some l.stop ∧
    (lineList l).count l.stop = 1 ∧
    lineList (Line.new ⟨1, 1⟩ ⟨3, 4⟩) = [⟨1, 1⟩, ⟨2, 2⟩, ⟨3, 3⟩, ⟨3, 4⟩] ∧
    (lineList (Line.new ⟨0, 0⟩ ⟨0, 5⟩)).length = 6 ∧
    lineList (Line.new ⟨0, 0⟩ ⟨0, 5⟩) =
      [⟨0, 0⟩, ⟨0, 1⟩, ⟨0, 2⟩, ⟨0, 3⟩, ⟨0, 4⟩, ⟨0, 5⟩] := by
  intro l
  obtain ⟨s, e⟩ := l
  exact ⟨lineList_head s e, lineList_eq s e, iterClosest_succ s e,
    lineList_getLast s e, lineList_count_stop s e, by decide, by decide, by decide⟩

/-- C3 witness: the general parts evaluated on the concrete line (1,1)-(3,4). -/
theorem claim_C3_witness :
    (lineList (Line.new ⟨1, 1⟩ ⟨3, 4⟩)).head? = some (⟨1, 1⟩ : Coordinate) ∧
    (lineList (Line.new ⟨1, 1⟩ ⟨3, 4⟩)).count ⟨3, 4⟩ = 1 :=
  ⟨(claim_C3 (Line.new ⟨1, 1⟩ ⟨3, 4⟩)).1,
   (claim_C3 (Line.new ⟨1, 1⟩ ⟨3, 4⟩)).2.2.2.2.1⟩

/-- C8: for every pair of endpoints the iterator is finite: iterated
`closest` reaches `end` after exactly `max(|Δx|,|Δy|)` steps and not
before, the emitted list has length `max(|Δx|,|Δy|) + 1`, the iterator
state after it returns `None`, and no fuel ever extracts more elements. -/
theorem claim_C8 : ∀ (l : Line),
    (lineList l).length = lineSteps l.start l.stop + 1 ∧
    iterClosest l.start l.stop (lineSteps l.start l.stop) = l.stop ∧
    (∀ n, n < lineSteps l.start l.stop → iterClosest l.start l.stop n ≠ l.stop) ∧
    ((runIter l.coords (lineSteps l.start l.stop + 1)).2).next = none ∧
    (∀ m, ((runIter l.coords m).1).length ≤ lineSteps l.start l.stop + 1) := by
  intro l
  obtain ⟨s, e⟩ := l
  refine ⟨lineList_length s e, iterClosest_lineSteps s e,
    fun n hn => iterClosest_ne_of_lt hn, ?_, ?_⟩
  · show (runIter (Line.new s e).coords (lineSteps s e + 1)).2.next = none
    rw [lineList_final s e]
    exact next_exhausted e
  · intro m
    show ((runIter (Line.new s e).coords m).1).length ≤ lineSteps s e + 1
    by_cases hm : m ≤ lineSteps s e + 1
    · exact le_trans (runIter_length_le m _) hm
    · have hsplit : m = (lineSteps s e + 1) + (m - (lineSteps s e + 1)) := by
        omega
      rw [hsplit, runIter_add]
      rw [List.length_append]
      have h2 : (runIter (Line.new s e).coords (lineSteps s e + 1)).2 =
          ⟨false, e, e⟩ := lineList_final s e
      rw [h2, runIter_none _ (next_exhausted e)]
      have h3 : ((runIter (Line.new s e).coords (lineSteps s e + 1)).1).length =
          lineSteps s e + 1 := lineList_length s e
      simp only [h3]
      simp

/-- C8 witness: the length and exhaustion facts evaluated on the mixed
line (1,1)-(3,4), where `max(|Δx|,|Δy|) = 3`. -/
theorem claim_C8_witness :
    (lineList (Line.new ⟨1, 1⟩ ⟨3, 4⟩)).length =
      lineSteps ⟨1, 1⟩ ⟨3, 4⟩ + 1 ∧
    iterClosest ⟨1, 1⟩ ⟨3, 4⟩ (lineSteps ⟨1, 1⟩ ⟨3, 4⟩) = ⟨3, 4⟩ :=
  ⟨(claim_C8 (Line.new ⟨1, 1⟩ ⟨3, 4⟩)).1, (claim_C8 (Line.new ⟨1, 1⟩ ⟨3, 4⟩)).2.1⟩

/-- C9 counterexample: the claim says `manhattan_distance` can never
overflow for any `i32` components, but the final `u32` addition
`xd + yd` wraps: at the extreme corners of the `i32` range the true sum
`|Δx| + |Δy| = 8589934590` exceeds `u32::MAX` and the function returns
the wrapped value `4294967294` instead. -/
theorem claim_C9_counterexample :
    Coordinate.manhattan_distance ⟨-2147483648, -2147483648⟩
        ⟨2147483647, 2147483647⟩ = 4294967294 ∧
    ((-2147483648 : Int) - 2147483647).natAbs +
      ((-2147483648 : Int) - 2147483647).natAbs = 8589934590 ∧
    Coordinate.manhattan_distance ⟨-2147483648, -2147483648⟩
        ⟨2147483647, 2147483647⟩ ≠
      ((-2147483648 : Int) - 2147483647).natAbs +
        ((-2147483648 : Int) - 2147483647).natAbs := by
  refine ⟨by decide, by decide, by decide⟩

/-- C9 (amended): `manhattan_distance` is always symmetric and
non-negative (it returns a `u32`), and it equals the exact
`|Δx| + |Δy|` whenever that sum fits in a `u32` (in particular whenever
each axis difference is below `2^31`); only beyond `u32::MAX` does the
final `u32` addition wrap. -/
theorem claim_C9_amended : ∀ (a b : Coordinate),
    Coordinate.manhattan_distance a b = Coordinate.manhattan_distance b a ∧
    ((a.x - b.x).natAbs + (a.y - b.y).natAbs < 2 ^ 32 →
      Coordinate.manhattan_distance a b =
        (a.x - b.x).natAbs + (a.y - b.y).natAbs) := by
  intro a b
  obtain ⟨ax, ay⟩ := a
  obtain ⟨bx, by'⟩ := b
  constructor
  · simp only [Coordinate.manhattan_distance]
    omega
  · intro h
    simp only [Coordinate.manhattan_distance] at h ⊢
    omega

/-- C9 witness: the amended exactness statement evaluated at (1,2), (4,6),
where the sum fits and equals 7. -/
theorem claim_C9_witness :
    Coordinate.manhattan_distance ⟨1, 2⟩ ⟨4, 6⟩ = 7 := by
  have h := (claim_C9_amended ⟨1, 2⟩ ⟨4, 6⟩).2 (by decide)
  exact h.trans (by decide)

/-- C10: `bounds` returns `None` exactly on the empty slice; on a
non-empty slice it returns the componentwise minima as the first corner
and the componentwise maxima as the second, each component attained by
some element, so the result is the smallest axis-aligned rectangle
containing the slice (its corners need not be elements, as the concrete
example shows). -/
theorem claim_C10 :
    bounds [] = none ∧
    (∀ (c0 : Coordinate) (l : List Coordinate), ∃ lo hi,
      bounds (c0 :: l) = some (lo, hi) ∧
      (∀ c ∈ c0 :: l, lo.x ≤ c.x ∧ lo.y ≤ c.y ∧ c.x ≤ hi.x ∧ c.y ≤ hi.y) ∧
      (∃ c ∈ c0 :: l, c.x = lo.x) ∧ (∃ c ∈ c0 :: l, c.y = lo.y) ∧
      (∃ c ∈ c0 :: l, c.x = hi.x) ∧ (∃ c ∈ c0 :: l, c.y = hi.y)) ∧
    bounds [⟨0, 1⟩, ⟨1, 0⟩] = some (⟨0, 0⟩, ⟨1, 1⟩) ∧
    (⟨0, 0⟩ : Coordinate) ∉ [(⟨0, 1⟩ : Coordinate), ⟨1, 0⟩] := by
  refine ⟨rfl, ?_, by decide, by decide⟩
  intro c0 l
  cases hmx : ((c0 :: l).map (fun c => c.x)).min? with
  | none => rw [List.min?_eq_none_iff] at hmx; cases hmx
  | some mx =>
  cases hmy : ((c0 :: l).map (fun c => c.y)).min? with
  | none => rw [List.min?_eq_none_iff] at hmy; cases hmy
  | some my =>
  cases hMx : ((c0 :: l).map (fun c => c.x)).max? with
  | none => rw [List.max?_eq_none_iff] at hMx; cases hMx
  | some Mx =>
  cases hMy : ((c0 :: l).map (fun c => c.y)).max? with
  | none => rw [List.max?_eq_none_iff] at hMy; cases hMy
  | some My =>
  refine ⟨⟨mx, my⟩, ⟨Mx, My⟩, ?_, ?_, ?_, ?_, ?_, ?_⟩
  · simp only [bounds, hmx, hmy, hMx, hMy]
    rfl
  · intro c hc
    refine ⟨?_, ?_, ?_, ?_⟩
    · exact (List.le_min?_iff (fun _ _ _ => le_min_iff) hmx).1 (le_refl mx)
        c.x (List.mem_map_of_mem _ hc)
    · exact (List.le_min?_iff (fun _ _ _ => le_min_iff) hmy).1 (le_refl my)
        c.y (List.mem_map_of_mem _ hc)
    · exact (List.max?_le_iff (fun _ _ _ => max_le_iff) hMx).1 (le_refl Mx)
        c.x (List.mem_map_of_mem _ hc)
    · exact (List.max?_le_iff (fun _ _ _ => max_le_iff) hMy).1 (le_refl My)
        c.y (List.mem_map_of_mem _ hc)
  · obtain ⟨c, hc, hcx⟩ :=
      List.mem_map.mp (List.min?_mem (fun _ _ => min_choice _ _) hmx)
    exact ⟨c, hc, hcx⟩
  · obtain ⟨c, hc, hcy⟩ :=
      List.mem_map.mp (List.min?_mem (fun _ _ => min_choice _ _) hmy)
    exact ⟨c, hc, hcy⟩
  · obtain ⟨c, hc, hcx⟩ :=
      List.mem_map.mp (List.max?_mem (fun _ _ => max_choice _ _) hMx)
    exact ⟨c, hc, hcx⟩
  · obtain ⟨c, hc, hcy⟩ :=
      List.mem_map.mp (List.max?_mem (fun _ _ => max_choice _ _) hMy)
    exact ⟨c, hc, hcy⟩

/-- C10 witness: the non-empty branch evaluated on the concrete
two-element slice. -/
theorem claim_C10_witness :
    ∃ lo hi, bounds [⟨0, 1⟩, ⟨1, 0⟩] = some (lo, hi) ∧
      (∀ c ∈ [(⟨0, 1⟩ : Coordinate), ⟨1, 0⟩],
        lo.x ≤ c.x ∧ lo.y ≤ c.y ∧ c.x ≤ hi.x ∧ c.y ≤ hi.y) ∧
      (∃ c ∈ [(⟨0, 1⟩ : Coordinate), ⟨1, 0⟩], c.x = lo.x) ∧
      (∃ c ∈ [(⟨0, 1⟩ : Coordinate), ⟨1, 0⟩], c.y = lo.y) ∧
      (∃ c ∈ [(⟨0, 1⟩ : Coordinate), ⟨1, 0⟩], c.x = hi.x) ∧
      (∃ c ∈ [(⟨0, 1⟩ : Coordinate), ⟨1, 0⟩], c.y = hi.y) :=
  claim_C10.2.1 ⟨0, 1⟩ [⟨1, 0⟩]

/-- C1 counterexample: the claim says `width()` always returns
`end.x - start.x + 1` after every operation, but after
`set_resize((5,5), 7)` on a grid from (0,0) to (2,2) the rectangle's end
becomes (5,5) while `width()` still returns the cached 3, not 6. -/
theorem claim_C1_counterexample :
    ((Grid.from_coords ⟨0, 0⟩ ⟨2, 2⟩ (0 : Int)).set_resize ⟨5, 5⟩ 7).width = 3 ∧
    ((Grid.from_coords ⟨0, 0⟩ ⟨2, 2⟩ (0 : Int)).set_resize ⟨5, 5⟩ 7).stop.x -
        ((Grid.from_coords ⟨0, 0⟩ ⟨2, 2⟩ (0 : Int)).set_resize ⟨5, 5⟩ 7).start.x
        + 1 = 6 ∧
    ¬((((Grid.from_coords ⟨0, 0⟩ ⟨2, 2⟩ (0 : Int)).set_resize ⟨5, 5⟩ 7).width : Int) =
      ((Grid.from_coords ⟨0, 0⟩ ⟨2, 2⟩ (0 : Int)).set_resize ⟨5, 5⟩ 7).stop.x -
        ((Grid.from_coords ⟨0, 0⟩ ⟨2, 2⟩ (0 : Int)).set_resize ⟨5, 5⟩ 7).start.x
        + 1) :=
  ⟨rfl, rfl, by decide⟩

/-- C1 (amended): `width`/`height` are cached at construction
(`|end.x − start.x| + 1`, `|end.y − start.y| + 1`) and are never updated
afterwards: `check_and_resize` (hence `get_resize`/`set_resize`) changes
`start`/`end` but leaves `width`/`height` at their construction-time
values, so after a resize they can disagree with the current rectangle. -/
theorem claim_C1_amended {T : Type} :
    ∀ (s e : Coordinate) (v : T) (g : Grid T) (c : Coordinate) (val : T),
    (Grid.from_coords s e v).width = (e.x - s.x).natAbs + 1 ∧
    (Grid.from_coords s e v).height = (e.y - s.y).natAbs + 1 ∧
    (g.check_and_resize c).width = g.width ∧
    (g.check_and_resize c).height = g.height ∧
    (g.set_resize c val).width = g.width ∧
    (g.set_resize c val).height = g.height ∧
    ((g.get_resize c).1).width = g.width ∧
    ((g.get_resize c).1).height = g.height ∧
    (g.set c val).width = g.width ∧
    (g.set c val).height = g.height := by
  intro s e v g c val
  obtain ⟨hp, hw, hh, he⟩ := check_and_resize_frame g c
  exact ⟨rfl, rfl, hw, hh, hw, hh, hw, hh, rfl, rfl⟩

/-- C1 witness: the amended statement evaluated on the concrete resize
from the counterexample. -/
theorem claim_C1_witness :
    ((Grid.from_coords ⟨0, 0⟩ ⟨2, 2⟩ (0 : Int)).set_resize ⟨5, 5⟩ 7).width =
      (Grid.from_coords ⟨0, 0⟩ ⟨2, 2⟩ (0 : Int)).width :=
  (claim_C1_amended ⟨0, 0⟩ ⟨2, 2⟩ (0 : Int)
    (Grid.from_coords ⟨0, 0⟩ ⟨2, 2⟩ (0 : Int)) ⟨5, 5⟩ 7).2.2.2.2.1

/-- C4: `get_bounded` (and `set_bounded`) fails exactly when the
coordinate leaves the rectangle on some axis, and the error classifies
each axis independently: `Smaller(start bound)` below `start`,
`Larger(end bound)` above `end`, `None` otherwise; in particular
`get_bounded((5,5))` on a (0,0)-(2,2) grid fails with `x: Larger(2)` and
`y: Larger(2)`. Stated for grids satisfying the documented invariant
`start ≤ end` on both axes. -/
theorem claim_C4 {T : Type} : ∀ (g : Grid T) (c : Coordinate) (v : T),
    g.start.x ≤ g.stop.x → g.start.y ≤ g.stop.y →
    ((∃ t, g.get_bounded c = Except.ok t) ↔
      (g.start.x ≤ c.x ∧ c.x ≤ g.stop.x ∧ g.start.y ≤ c.y ∧ c.y ≤ g.stop.y)) ∧
    (∀ e, g.get_bounded c = Except.error e →
      e.coord = c ∧
      (e.x_overflow = OverflowType.smaller g.start.x ↔ c.x < g.start.x) ∧
      (e.x_overflow = OverflowType.larger g.stop.x ↔ g.stop.x < c.x) ∧
      (e.x_overflow = OverflowType.none ↔ g.start.x ≤ c.x ∧ c.x ≤ g.stop.x) ∧
      (e.y_overflow = OverflowType.smaller g.start.y ↔ c.y < g.start.y) ∧
      (e.y_overflow = OverflowType.larger g.stop.y ↔ g.stop.y < c.y) ∧
      (e.y_overflow = OverflowType.none ↔ g.start.y ≤ c.y ∧ c.y ≤ g.stop.y)) ∧
    (∀ e, g.get_bounded c = Except.error e ↔
      g.set_bounded c v = Except.error e) ∧
    (Grid.from_coords ⟨0, 0⟩ ⟨2, 2⟩ (0 : Int)).get_bounded ⟨5, 5⟩ =
      Except.error ⟨⟨5, 5⟩, OverflowType.larger 2, OverflowType.larger 2⟩ := by
  intro g c v hx hy
  refine ⟨get_bounded_ok_iff g c, ?_, ?_, rfl⟩
  · intro e he
    have hcb := (get_bounded_error_iff g c e).mp he
    rw [check_bounds_error_iff] at hcb
    obtain ⟨hout, he0⟩ := hcb
    subst he0
    refine ⟨rfl, ?_, ?_, ?_, ?_, ?_, ?_⟩ <;>
      · show (if _ then _ else _) = _ ↔ _
        split_ifs <;> simp <;> omega
  · intro e
    rw [get_bounded_error_iff, set_bounded_error_iff]

/-- C4 witness: both hypotheses and the characterization applied to the
concrete (0,0)-(2,2) grid at (5,5). -/
theorem claim_C4_witness :
    ¬(∃ t, (Grid.from_coords ⟨0, 0⟩ ⟨2, 2⟩ (0 : Int)).get_bounded ⟨5, 5⟩ =
      Except.ok t) := by
  have h := (claim_C4 (Grid.from_coords ⟨0, 0⟩ ⟨2, 2⟩ (0 : Int)) ⟨5, 5⟩ 0
    (by decide) (by decide)).1
  rw [h]
  decide

/-- C5: `get` never fails for any coordinate, in or out of bounds: it
returns the stored value when present and `empty` otherwise; on the
concrete (0,0)-(2,2) grid with empty 0, `get((1,1)) = 0`, after
`set((1,1),9)` it is 9, and `get((5,5)) = 0` rather than an error. -/
theorem claim_C5 {T : Type} : ∀ (g : Grid T) (c : Coordinate) (v t : T),
    (g.points c = some t → g.get c = t) ∧
    (g.points c = none → g.get c = g.empty) ∧
    ((g.set c v).get c = v) ∧
    ((Grid.from_coords ⟨0, 0⟩ ⟨2, 2⟩ (0 : Int)).get ⟨1, 1⟩ = 0) ∧
    (((Grid.from_coords ⟨0, 0⟩ ⟨2, 2⟩ (0 : Int)).set ⟨1, 1⟩ 9).get ⟨1, 1⟩ = 9) ∧
    ((Grid.from_coords ⟨0, 0⟩ ⟨2, 2⟩ (0 : Int)).get ⟨5, 5⟩ = 0) := by
  intro g c v t
  refine ⟨fun h => by simp [Grid.get, h], fun h => by simp [Grid.get, h],
    get_set_same g c v, rfl, rfl, rfl⟩

/-- C5 witness: the set-then-get clause evaluated on the concrete grid. -/
theorem claim_C5_witness :
    ((Grid.from_coords ⟨0, 0⟩ ⟨2, 2⟩ (0 : Int)).set ⟨1, 1⟩ 9).get ⟨1, 1⟩ = 9 :=
  (claim_C5 (Grid.from_coords ⟨0, 0⟩ ⟨2, 2⟩ (0 : Int)) ⟨1, 1⟩ 9 0).2.2.2.2.1

/-- C6: `set_resize` grows the rectangle only on the overflowing axes
(new `start` is the componentwise min with the coordinate, new `end` the
componentwise max, so the opposite corner is untouched), stores the value
at the coordinate, and changes no other cell; the concrete
`set_resize((5,5), 7)` on the (0,0)-(2,2) grid gives end (5,5), start
still (0,0), `get((5,5)) = 7`, and all other cells unchanged. -/
theorem claim_C6 {T : Type} : ∀ (g : Grid T) (c : Coordinate) (v : T),
    g.start.x ≤ g.stop.x → g.start.y ≤ g.stop.y →
    ((g.set_resize c v).start = ⟨min g.start.x c.x, min g.start.y c.y⟩ ∧
     (g.set_resize c v).stop = ⟨max g.stop.x c.x, max g.stop.y c.y⟩ ∧
     (g.set_resize c v).get c = v ∧
     (∀ c2, c2 ≠ c → (g.set_resize c v).get c2 = g.get c2)) ∧
    (((Grid.from_coords ⟨0, 0⟩ ⟨2, 2⟩ (0 : Int)).set_resize ⟨5, 5⟩ 7).stop =
        ⟨5, 5⟩ ∧
     ((Grid.from_coords ⟨0, 0⟩ ⟨2, 2⟩ (0 : Int)).set_resize ⟨5, 5⟩ 7).start =
        ⟨0, 0⟩ ∧
     ((Grid.from_coords ⟨0, 0⟩ ⟨2, 2⟩ (0 : Int)).set_resize ⟨5, 5⟩ 7).get ⟨5, 5⟩
        = 7 ∧
     (∀ c2, c2 ≠ ⟨5, 5⟩ →
       ((Grid.from_coords ⟨0, 0⟩ ⟨2, 2⟩ (0 : Int)).set_resize ⟨5, 5⟩ 7).get c2 =
         (Grid.from_coords ⟨0, 0⟩ ⟨2, 2⟩ (0 : Int)).get c2)) := by
  intro g c v hx hy
  refine ⟨set_resize_spec g c v hx hy, rfl, rfl, rfl, ?_⟩
  exact (set_resize_spec (Grid.from_coords ⟨0, 0⟩ ⟨2, 2⟩ (0 : Int)) ⟨5, 5⟩ 7
    (by decide) (by decide)).2.2.2

/-- C6 witness: hypotheses discharged on the concrete grid; the frame
property read back at the untouched cell (1,1). -/
theorem claim_C6_witness :
    ((Grid.from_coords ⟨0, 0⟩ ⟨2, 2⟩ (0 : Int)).set_resize ⟨5, 5⟩ 7).get ⟨1, 1⟩ =
      (Grid.from_coords ⟨0, 0⟩ ⟨2, 2⟩ (0 : Int)).get ⟨1, 1⟩ :=
  ((claim_C6 (Grid.from_coords ⟨0, 0⟩ ⟨2, 2⟩ (0 : Int)) ⟨5, 5⟩ 7
    (by decide) (by decide)).1).2.2.2 ⟨1, 1⟩ (by decide)

/-- C7: starting from a grid with `start ≤ end` componentwise, the resize
family preserves the invariant and only ever grows the rectangle
(`start` never increases, `end` never decreases), while `set` and a
successful `set_bounded` leave `start`/`end` unchanged (the read-only
operations return no grid at all in this embedding, so they cannot mutate
bounds). -/
theorem claim_C7 {T : Type} : ∀ (g : Grid T) (c : Coordinate) (v : T),
    g.start.x ≤ g.stop.x → g.start.y ≤ g.stop.y →
    ((g.check_and_resize c).start.x ≤ (g.check_and_resize c).stop.x ∧
     (g.check_and_resize c).start.y ≤ (g.check_and_resize c).stop.y ∧
     (g.check_and_resize c).start.x ≤ g.start.x ∧
     (g.check_and_resize c).start.y ≤ g.start.y ∧
     g.stop.x ≤ (g.check_and_resize c).stop.x ∧
     g.stop.y ≤ (g.check_and_resize c).stop.y) ∧
    ((g.set_resize c v).start = (g.check_and_resize c).start ∧
     (g.set_resize c v).stop = (g.check_and_resize c).stop ∧
     (g.get_resize c).1 = g.check_and_resize c) ∧
    ((g.set c v).start = g.start ∧ (g.set c v).stop = g.stop ∧
     (∀ g2, g.set_bounded c v = Except.ok g2 →
       g2.start = g.start ∧ g2.stop = g.stop)) := by
  intro g c v hx hy
  obtain ⟨hstart, hstop⟩ := check_and_resize_bounds g c hx hy
  refine ⟨?_, ⟨rfl, rfl, rfl⟩, rfl, rfl, ?_⟩
  · rw [hstart, hstop]
    simp only []
    omega
  · intro g2 hok
    obtain ⟨-, hg2⟩ := (set_bounded_ok_iff g c v g2).mp hok
    subst hg2
    exact ⟨rfl, rfl⟩

/-- C7 witness: invariant preservation and monotonicity after the
concrete resize to (5,5). -/
theorem claim_C7_witness :
    ((Grid.from_coords ⟨0, 0⟩ ⟨2, 2⟩ (0 : Int)).check_and_resize ⟨5, 5⟩).start.x ≤
      ((Grid.from_coords ⟨0, 0⟩ ⟨2, 2⟩ (0 : Int)).check_and_resize ⟨5, 5⟩).stop.x :=
  ((claim_C7 (Grid.from_coords ⟨0, 0⟩ ⟨2, 2⟩ (0 : Int)) ⟨5, 5⟩ 0
    (by decide) (by decide)).1).1

/-- C2: `coords_in_area(center, distance, filter)` yields exactly the
coordinates within Manhattan distance `distance` of `center` that satisfy
the filter, each exactly once, despite the bounding square's corners
being given with decreasing y components; concretely, for center (0,0)
and distance 1 with a trivially-true filter it yields exactly the five
coordinates of the unit diamond and nothing at distance 2. Stated for
`distance < 2^31`, the range where the source's `distance as i32`
conversion is value-preserving. -/
theorem claim_C2 : ∀ (center : Coordinate) (distance : Nat)
    (filter : Coordinate → Bool), distance < 2 ^ 31 →
    (∀ c : Coordinate, (Grid.coords_in_area center distance filter).count c =
      if filter c = true ∧
          (c.x - center.x).natAbs + (c.y - center.y).natAbs ≤ distance
      then 1 else 0) ∧
    Grid.coords_in_area ⟨0, 0⟩ 1 (fun _ => true) =
      [⟨0, 1⟩, ⟨-1, 0⟩, ⟨0, 0⟩, ⟨1, 0⟩, ⟨0, -1⟩] ∧
    (⟨1, 1⟩ : Coordinate) ∉ Grid.coords_in_area ⟨0, 0⟩ 1 (fun _ => true) := by
  intro center distance filter hd
  refine ⟨?_, by decide, by decide⟩
  intro c
  obtain ⟨cx, cy⟩ := center
  exact coords_in_area_count cx cy distance filter hd c

/-- C2 witness: the hypothesis discharged at distance 1 and the count
read back at (0,1) and at the excluded (1,1). -/
theorem claim_C2_witness :
    (Grid.coords_in_area ⟨0, 0⟩ 1 (fun _ => true)).count ⟨0, 1⟩ = 1 ∧
    (Grid.coords_in_area ⟨0, 0⟩ 1 (fun _ => true)).count ⟨1, 1⟩ = 0 := by
  have h := (claim_C2 ⟨0, 0⟩ 1 (fun _ => true) (by decide)).1
  constructor
  · exact (h ⟨0, 1⟩).trans (by decide)
  · exact (h ⟨1, 1⟩).trans (by decide)
